import Mathlib

/-!
Verification of the shift-window detection and attendance-metrics engine of the
facial-attendance backend.

Time model: a JavaScript `Date` is an absolute count of milliseconds; local
calendar days are idealized as uniform 86400000 ms (no DST).  `Date.getHours`,
`Date.setHours`, and `setDate(getDate()+1)` are modelled by integer arithmetic
on that absolute count.  Fractional JS arithmetic (`/`, `toFixed`) is modelled
over `ℚ`; `Math.round` is `round` (both are floor of x + 1/2).
-/

namespace FacialAttendance

/-- One local day in milliseconds. -/
def dayMs : ℤ := 86400000

/-- Model of `Date.prototype.getHours` for an idealized local calendar. -/
def getHours (t : ℤ) : ℤ := (t.ediv 3600000).emod 24

/-- Model of `Date.prototype.getMinutes`. -/
def getMinutes (t : ℤ) : ℤ := (t.ediv 60000).emod 60

/-- A shift row as produced by `getAllShifts` in
`services/attendanceLogicService.js` (times already run through `parseTime`,
grace and presence columns defaulted by the SQL schema / `||` fallbacks). -/
structure Shift where
  startHour : ℤ
  startMinute : ℤ
  endHour : ℤ
  endMinute : ℤ
  graceBefore : ℤ
  graceAfter : ℤ
  presenceTime : ℤ
  presenceCount : ℤ
  presenceWindow : ℤ
deriving DecidableEq

instance : Inhabited Shift := ⟨⟨0, 0, 0, 0, 0, 0, 0, 0, 0⟩⟩

/-- The data-model invariant: start/end are times of day. -/
def ValidShift (s : Shift) : Prop :=
  0 ≤ s.startHour ∧ s.startHour ≤ 23 ∧ 0 ≤ s.startMinute ∧ s.startMinute ≤ 59 ∧
  0 ≤ s.endHour ∧ s.endHour ≤ 23 ∧ 0 ≤ s.endMinute ∧ s.endMinute ≤ 59

instance (s : Shift) : Decidable (ValidShift s) := by
  unfold ValidShift; infer_instance

/-- Transient result of the shift matchers (`{ shiftIndex, shift }`). -/
structure DetectedShiftMatch where
  shiftIndex : ℕ
  shift : Shift
deriving DecidableEq

/-- The shared shape of the two matcher `for` loops (attendanceLogicService.js
lines 63-73 and 124-133): first shift, in catalog order, satisfying the
per-shift test, together with its index. -/
def firstMatchLoop (p : Shift → Bool) : List Shift → ℕ → Option DetectedShiftMatch
  | [], _ => none
  | s :: rest, i => if p s then some ⟨i, s⟩ else firstMatchLoop p rest (i + 1)

/-- The `isInShift` test of `detectShiftForTime` (lines 65-70): overnight
windows (`end < start`) match by disjunction; both window forms are
end-inclusive (`<=` on both sides in the source). -/
def isInShift (checkInMinutes : ℤ) (shift : Shift) : Bool :=
  let shiftStartMinutes := shift.startHour * 60 + shift.startMinute
  let shiftEndMinutes := shift.endHour * 60 + shift.endMinute
  let isMidnightShift := decide (shiftEndMinutes < shiftStartMinutes)
  if isMidnightShift then
    decide (shiftStartMinutes ≤ checkInMinutes) || decide (checkInMinutes ≤ shiftEndMinutes)
  else
    decide (shiftStartMinutes ≤ checkInMinutes) && decide (checkInMinutes ≤ shiftEndMinutes)

/-- `detectShiftForTime` (attendanceLogicService.js lines 58-76): `null` on an
empty catalog, otherwise the loop result, falling back to the first shift. -/
def detectShiftForTime (checkInTime : ℤ) (shifts : List Shift) : Option DetectedShiftMatch :=
  match shifts with
  | [] => none
  | s0 :: _ =>
    let checkInMinutes := getHours checkInTime * 60 + getMinutes checkInTime
    match firstMatchLoop (isInShift checkInMinutes) shifts 0 with
    | some r => some r
    | none => some ⟨0, s0⟩

/-- `buildLocalTime` (lines 78-82): `d.setHours(hour, minute, 0, 0)` on a copy
of the base date. -/
def buildLocalTime (baseTime hour minute : ℤ) : ℤ :=
  baseTime.ediv dayMs * dayMs + (hour * 60 + minute) * 60000

/-- `buildShiftEndTime` (lines 84-91): end-of-shift on the base date, pushed to
the next day when not strictly after the same-day start. -/
def buildShiftEndTime (baseTime : ℤ) (shift : Shift) : ℤ :=
  let start := buildLocalTime baseTime shift.startHour shift.startMinute
  let e := buildLocalTime baseTime shift.endHour shift.endMinute
  if e ≤ start then e + dayMs else e

/-- The per-shift grace-window test of `findShiftForPunchWithGrace` (lines
126-130): `[start - graceBefore, end + graceAfter]`, end built by
`buildShiftEndTime`. -/
def inGraceWindow (time : ℤ) (shift : Shift) : Bool :=
  let startAt := buildLocalTime time shift.startHour shift.startMinute
  let endAt := buildShiftEndTime time shift
  let earliest := startAt - shift.graceBefore * 60 * 1000
  let latest := endAt + shift.graceAfter * 60 * 1000
  decide (earliest ≤ time) && decide (time ≤ latest)

/-- `findShiftForPunchWithGrace` (lines 122-135): grace-aware first match with
fallback to the containment match. -/
def findShiftForPunchWithGrace (time : ℤ) (shifts : List Shift) : Option DetectedShiftMatch :=
  match shifts with
  | [] => none
  | _ :: _ =>
    match firstMatchLoop (inGraceWindow time) shifts 0 with
    | some r => some r
    | none => detectShiftForTime time shifts

/-- `getShiftEndWithGrace` (lines 137-140). -/
def getShiftEndWithGrace (time : ℤ) (shift : Shift) : ℤ :=
  buildShiftEndTime time shift + shift.graceAfter * 60 * 1000

/-- Rounding to two decimals: `parseFloat(x.toFixed(2))` on nonnegative inputs
(and `toFixed`'s round-half-away-from-zero agrees with `round` there). -/
def round2 (x : ℚ) : ℚ := (round (x * 100) : ℚ) / 100

/-- The metrics record returned by `calculateAttendanceMetrics`. -/
structure Metrics where
  delay_by_minutes : ℤ
  extra_time_minutes : ℤ
  total_working_hours_decimal : ℚ
  ot_hours_decimal : ℚ
deriving DecidableEq

/-- `ZERO_METRICS` (attendanceLogicService.js line 2). -/
def ZERO_METRICS : Metrics := ⟨0, 0, 0, 0⟩

/-- Default of `MIN_OT_MINUTES` (line 3, env default "15"). -/
def MIN_OT_MINUTES : ℤ := 15

/-- `detectedShift?.shift || shifts[0]` (line 160 and reportRoutes.js 337). -/
def resolveShift (inTime : ℤ) (shifts : List Shift) : Shift :=
  match detectShiftForTime inTime shifts with
  | some r => r.shift
  | none => shifts.headI

/-- The overtime computation of `calculateAttendanceMetrics` (lines 179-186):
OT only after `shiftEnd + graceAfter`, counted from `shiftEnd`, recorded only
from `MIN_OT_MINUTES` minutes up. -/
def otHours (minOT outTime shiftEndTime graceAfter : ℤ) : ℚ :=
  if shiftEndTime + graceAfter * 60 * 1000 < outTime then
    if minOT ≤ round ((outTime - shiftEndTime : ℚ) / 60000) then
      round2 ((round ((outTime - shiftEndTime : ℚ) / 60000) : ℚ) / 60)
    else 0
  else 0

/-- `calculateAttendanceMetrics` (lines 142-194).  The timestamp strings are
modelled as `Option ℤ`: `none` stands for a missing/empty string or one whose
`new Date(...)` is `NaN`; the shift catalog stands for `getAllShifts` of the
employee type (an absent employee type gives the same zero result as an empty
catalog). -/
def calculateAttendanceMetrics (minOT : ℤ) (inTime? outTime? : Option ℤ)
    (shifts : List Shift) : Metrics :=
  match inTime?, outTime? with
  | some inTime, some outTime =>
    match shifts with
    | [] => ZERO_METRICS
    | _ :: _ =>
      if outTime ≤ inTime then ZERO_METRICS
      else
        let total_working_hours_decimal := max 0 (round2 ((outTime - inTime : ℚ) / 3600000))
        let shift := resolveShift inTime shifts
        let shiftStartTime := buildLocalTime inTime shift.startHour shift.startMinute
        let shiftEndTime := buildShiftEndTime inTime shift
        let delay_by_minutes :=
          if shiftStartTime < inTime then round ((inTime - shiftStartTime : ℚ) / 60000) else 0
        let extra_time_minutes :=
          if shiftEndTime < outTime then round ((outTime - shiftEndTime : ℚ) / 60000) else 0
        let ot_hours_decimal := otHours minOT outTime shiftEndTime shift.graceAfter
        ⟨max 0 delay_by_minutes, max 0 extra_time_minutes,
          total_working_hours_decimal, ot_hours_decimal⟩
  | _, _ => ZERO_METRICS

/-! ### Presence debouncer (`services/presenceDetectionService.js`) -/

/-- Descending insertion, used to model the `ORDER BY detection_time DESC` of
the presence query. -/
def insertDesc (x : ℤ) : List ℤ → List ℤ
  | [] => [x]
  | y :: ys => if y ≤ x then x :: y :: ys else y :: insertDesc x ys

/-- Descending sort. -/
def sortDesc : List ℤ → List ℤ
  | [] => []
  | x :: xs => insertDesc x (sortDesc xs)

/-- `checkPresenceRequirement` (presenceDetectionService.js lines 38-74).
`store` is the set of `detection_time` values recorded for the employee/date;
the SQL query keeps those at or after `now - presenceWindow` seconds, newest
first.  `rows[0]` and `rows[rows.length-1]` are modelled by `headD`/`getLastD`
(the defaults are irrelevant: that branch requires at least two rows). -/
def checkPresenceRequirement (store : List ℤ) (now presenceTime presenceCount presenceWindow : ℤ) : Bool :=
  let windowStart := now - presenceWindow * 1000
  let rows := sortDesc (store.filter (fun t => decide (windowStart ≤ t)))
  if rows.length = 0 then false
  else if presenceCount ≤ (rows.length : ℤ) then true
  else if 2 ≤ rows.length then
    let firstDetection := rows.getLastD 0
    let lastDetection := rows.headD 0
    decide ((presenceTime : ℚ) ≤ (lastDetection - firstDetection : ℚ) / 1000)
  else false

/-! ### Time parser (`parseTime`, attendanceLogicService.js lines 5-23)

The JS string primitives it uses (`trim`, `toUpperCase`, `includes`,
single-occurrence `replace`, `split(':')`, `parseInt(_, 10)`,
`replace(/\D/g, '')`) are modelled on `List Char`. -/

/-- Whitespace recognized by `trim` / `parseInt` (ASCII subset). -/
def isJsSpace (c : Char) : Bool := c = ' ' || c = '\t' || c = '\n' || c = '\r'

/-- `String.prototype.trim`. -/
def jsTrim (s : List Char) : List Char :=
  ((s.dropWhile isJsSpace).reverse.dropWhile isJsSpace).reverse

/-- ASCII uppercasing, the fragment of `toUpperCase` relevant to time strings. -/
def upperChar (c : Char) : Char :=
  if 'a' ≤ c ∧ c ≤ 'z' then Char.ofNat (c.toNat - 32) else c

/-- `String.prototype.toUpperCase` (ASCII). -/
def jsToUpperCase (s : List Char) : List Char := s.map upperChar

/-- Does `s` start with `pat`? -/
def startsWith : List Char → List Char → Bool
  | _, [] => true
  | [], _ :: _ => false
  | c :: cs, p :: ps => c = p && startsWith cs ps

/-- `String.prototype.includes` for a nonempty pattern. -/
def containsSub : List Char → List Char → Bool
  | [], pat => startsWith [] pat
  | s@(_ :: rest), pat => startsWith s pat || containsSub rest pat

/-- `String.prototype.replace` with a string pattern: first occurrence only. -/
def replaceFirst : List Char → List Char → List Char
  | [], _ => []
  | s@(c :: rest), pat =>
    if startsWith s pat then s.drop pat.length else c :: replaceFirst rest pat

/-- Decimal digit test (`/\D/` complement): code points 48-57. -/
def jsIsDigit (c : Char) : Bool := decide (48 ≤ c.toNat) && decide (c.toNat ≤ 57)

/-- Value of a digit run. -/
def digitsToInt (ds : List Char) : ℤ :=
  ds.foldl (fun a c => a * 10 + ((c.toNat : ℤ) - 48)) 0

/-- Digit-prefix part of `parseInt`: `none` models `NaN`. -/
def jsParseIntCore (s : List Char) : Option ℤ :=
  let ds := s.takeWhile jsIsDigit
  if ds.isEmpty then none else some (digitsToInt ds)

/-- `parseInt(s, 10)`: skip whitespace, optional sign, longest digit prefix. -/
def jsParseInt (s : List Char) : Option ℤ :=
  match s.dropWhile isJsSpace with
  | [] => none
  | c :: rest =>
    if c = '-' then (jsParseIntCore rest).map (fun n => -n)
    else if c = '+' then jsParseIntCore rest
    else jsParseIntCore (c :: rest)

/-- `x || 0` applied to a `parseInt` result (`NaN ↦ 0`, `0 ↦ 0`). -/
def orZero (x : Option ℤ) : ℤ := x.getD 0

/-- `String.prototype.split(':')`. -/
def splitOnColon : List Char → List (List Char)
  | [] => [[]]
  | c :: rest =>
    if c = ':' then [] :: splitOnColon rest
    else
      match splitOnColon rest with
      | [] => [[c]]
      | h :: t => (c :: h) :: t

/-- The uppercased trimmed input (`upper` in `parseTime`). -/
def timeUpper (s : String) : List Char := jsToUpperCase (jsTrim s.toList)

/-- `upper.includes('AM')`. -/
def timeHasAM (s : String) : Bool := containsSub (timeUpper s) ['A', 'M']

/-- `upper.includes('PM')`. -/
def timeHasPM (s : String) : Bool := containsSub (timeUpper s) ['P', 'M']

/-- `upper.replace('AM','').replace('PM','').trim().split(':')`. -/
def timeParts (s : String) : List (List Char) :=
  splitOnColon (jsTrim (replaceFirst (replaceFirst (timeUpper s) ['A', 'M']) ['P', 'M']))

/-- `parseInt(parts[0], 10) || 0`. -/
def rawHour (s : String) : ℤ := orZero (jsParseInt ((timeParts s).headD []))

/-- `parseInt((parts[1] || '0').replace(/\D/g, ''), 10) || 0`. -/
def rawMinute (s : String) : ℤ :=
  let minutePart :=
    match timeParts s with
    | _ :: b :: _ => if b.isEmpty then ['0'] else b
    | _ => ['0']
  orZero (jsParseInt (minutePart.filter jsIsDigit))

/-- Result record of `parseTime`. -/
structure ParsedTime where
  hour : ℤ
  minute : ℤ
deriving DecidableEq

/-- `parseTime` (attendanceLogicService.js lines 5-23). -/
def parseTime (timeStr : String) : ParsedTime :=
  let hour0 := rawHour timeStr
  let hour :=
    if timeHasAM timeStr then (if hour0 = 12 then 0 else hour0)
    else if timeHasPM timeStr then (if hour0 = 12 then 12 else hour0 + 12)
    else hour0
  ⟨hour, rawMinute timeStr⟩

/-! ### Report recompute (`routes/reportRoutes.js` lines 313-378) -/

/-- The `regularShiftHours` computation of the detailed report (reportRoutes.js
lines 330-352): full shift duration when checkout reaches shift end, otherwise
hours from shift start to the early checkout. -/
def regularShiftHours (inTime outTime : ℤ) (shifts : List Shift) : ℚ :=
  match shifts with
  | [] => 0
  | _ :: _ =>
    let shift := resolveShift inTime shifts
    let shiftStartTime := buildLocalTime inTime shift.startHour shift.startMinute
    let shiftEndTime := buildShiftEndTime inTime shift
    if shiftEndTime ≤ outTime then
      max 0 (round2 ((shiftEndTime - shiftStartTime : ℚ) / 3600000))
    else
      max 0 (round2 ((outTime - shiftStartTime : ℚ) / 3600000))

/-- The final total/OT recompute of the detailed report (reportRoutes.js lines
354-372), for a row whose two timestamps are present.  `dbOTHours` is
`parseFloat(row.ot_hours_decimal) || 0`.  Returns
`(total_working_hours_decimal, ot_hours_decimal)` of the processed row. -/
def reportRecompute (minOT inTime outTime : ℤ) (shifts : List Shift) (dbOTHours : ℚ) : ℚ × ℚ :=
  let metrics := calculateAttendanceMetrics minOT (some inTime) (some outTime) shifts
  let finalOTHours := if 0 < dbOTHours then dbOTHours else metrics.ot_hours_decimal
  let finalTotalHours :=
    if 0 < dbOTHours then
      max 0 (round2 (metrics.total_working_hours_decimal + dbOTHours))
    else if 0 < finalOTHours then
      max 0 (round2 (regularShiftHours inTime outTime shifts + finalOTHours))
    else metrics.total_working_hours_decimal
  (finalTotalHours, finalOTHours)

/-! ### Auto-checkout sweeper (`services/faceRecognitionService.js` part
`autoCheckoutOverdue`, lines 148-179) -/

/-- An `attendance_records` row as the sweeper sees it. -/
structure AttendanceRecord where
  inTime : ℤ
  outTime : Option ℤ
  employeeType : String
  delay_by_minutes : ℤ
  extra_time_minutes : ℤ
  total_working_hours_decimal : ℚ
deriving DecidableEq

/-- One iteration of the sweeper loop on a single record.  The SQL
`WHERE r.out_time IS NULL` filter is the first match; `shiftsOf` stands for
`getAllShifts(row.employee_type)`. -/
def sweepRecord (shiftsOf : String → List Shift) (minOT now : ℤ) (r : AttendanceRecord) : AttendanceRecord :=
  match r.outTime with
  | some _ => r
  | none =>
    match shiftsOf r.employeeType with
    | [] => r
    | _ :: _ =>
      let shifts := shiftsOf r.employeeType
      let shift := resolveShift r.inTime shifts
      let endWithGrace := getShiftEndWithGrace r.inTime shift
      if endWithGrace ≤ now then
        let metrics := calculateAttendanceMetrics minOT (some r.inTime) (some endWithGrace) shifts
        { r with
          outTime := some endWithGrace
          delay_by_minutes := metrics.delay_by_minutes
          extra_time_minutes := metrics.extra_time_minutes
          total_working_hours_decimal := metrics.total_working_hours_decimal }
      else r

/-- `autoCheckoutOverdue`: sweep every open record of the store. -/
def autoCheckoutOverdue (shiftsOf : String → List Shift) (minOT now : ℤ)
    (records : List AttendanceRecord) : List AttendanceRecord :=
  records.map (sweepRecord shiftsOf minOT now)

/-! ### Specification-side formulations (written from the spec wording, to be
compared with the code models above) -/

/-- Index of the first list entry satisfying `p`. -/
def firstMatchIdx (p : Shift → Bool) : List Shift → Option ℕ
  | [] => none
  | s :: rest => if p s then some 0 else (firstMatchIdx p rest).map (· + 1)

/-- Containment as claim C1 words it: a half-open `[start, end)` window for a
same-day shift, `time ≥ start ∨ time ≤ end` for an overnight one. -/
def SpecContainsHalfOpen (m : ℤ) (s : Shift) : Prop :=
  (s.endHour * 60 + s.endMinute < s.startHour * 60 + s.startMinute ∧
    (s.startHour * 60 + s.startMinute ≤ m ∨ m ≤ s.endHour * 60 + s.endMinute)) ∨
  (s.startHour * 60 + s.startMinute ≤ s.endHour * 60 + s.endMinute ∧
    s.startHour * 60 + s.startMinute ≤ m ∧ m < s.endHour * 60 + s.endMinute)

instance (m : ℤ) (s : Shift) : Decidable (SpecContainsHalfOpen m s) := by
  unfold SpecContainsHalfOpen; infer_instance

/-- Containment with a closed `[start, end]` window for a same-day shift (the
amended form of claim C1). -/
def SpecContainsClosed (m : ℤ) (s : Shift) : Prop :=
  (s.endHour * 60 + s.endMinute < s.startHour * 60 + s.startMinute ∧
    (s.startHour * 60 + s.startMinute ≤ m ∨ m ≤ s.endHour * 60 + s.endMinute)) ∨
  (s.startHour * 60 + s.startMinute ≤ s.endHour * 60 + s.endMinute ∧
    s.startHour * 60 + s.startMinute ≤ m ∧ m ≤ s.endHour * 60 + s.endMinute)

instance (m : ℤ) (s : Shift) : Decidable (SpecContainsClosed m s) := by
  unfold SpecContainsClosed; infer_instance

/-- Claim C1 as stated: first shift (in catalog order) whose half-open window
contains the timestamp's minutes of day; first shift of the catalog if none. -/
def detectShiftSpecHalfOpen (t : ℤ) (shifts : List Shift) : Option DetectedShiftMatch :=
  match shifts with
  | [] => none
  | s0 :: _ =>
    let m := getHours t * 60 + getMinutes t
    match firstMatchIdx (fun s => decide (SpecContainsHalfOpen m s)) shifts with
    | some i => some ⟨i, shifts.getD i s0⟩
    | none => some ⟨0, s0⟩

/-- Claim C1 amended: the same with closed windows. -/
def detectShiftSpecClosed (t : ℤ) (shifts : List Shift) : Option DetectedShiftMatch :=
  match shifts with
  | [] => none
  | s0 :: _ =>
    let m := getHours t * 60 + getMinutes t
    match firstMatchIdx (fun s => decide (SpecContainsClosed m s)) shifts with
    | some i => some ⟨i, shifts.getD i s0⟩
    | none => some ⟨0, s0⟩

/-- The grace window as claim C6 words it: `[start - graceBefore,
end (+1 day if the shift wraps midnight) + graceAfter]`, wrap meaning the end
minutes of day do not exceed the start minutes of day. -/
def SpecGraceWindow (t : ℤ) (s : Shift) : Prop :=
  let startAt := buildLocalTime t s.startHour s.startMinute
  let endAt0 := buildLocalTime t s.endHour s.endMinute
  let endAt :=
    if s.endHour * 60 + s.endMinute ≤ s.startHour * 60 + s.startMinute
    then endAt0 + dayMs else endAt0
  startAt - s.graceBefore * 60 * 1000 ≤ t ∧ t ≤ endAt + s.graceAfter * 60 * 1000

instance (t : ℤ) (s : Shift) : Decidable (SpecGraceWindow t s) := by
  unfold SpecGraceWindow; infer_instance

/-- Claim C6: first shift (in catalog order) whose grace window contains the
timestamp; the containment match if none. -/
def findShiftSpecGrace (t : ℤ) (shifts : List Shift) : Option DetectedShiftMatch :=
  match shifts with
  | [] => none
  | s0 :: _ =>
    match firstMatchIdx (fun s => decide (SpecGraceWindow t s)) shifts with
    | some i => some ⟨i, shifts.getD i s0⟩
    | none => detectShiftForTime t shifts

/-! ## Helper lemmas about the matcher loops -/

theorem firstMatchLoop_eq_firstMatchIdx (p : Shift → Bool) (l : List Shift) (i : ℕ) :
    firstMatchLoop p l i =
      (firstMatchIdx p l).map (fun j => ⟨i + j, l.getD j default⟩) := by
  induction l generalizing i with
  | nil => rfl
  | cons s rest ih =>
    by_cases hp : p s
    · simp [firstMatchLoop, firstMatchIdx, hp]
    · simp only [firstMatchLoop, firstMatchIdx, hp, Bool.false_eq_true, if_false, ih (i + 1)]
      cases firstMatchIdx p rest with
      | none => rfl
      | some j =>
        simp only [Option.map_some']
        rw [List.getD_cons_succ]
        have hidx : i + 1 + j = i + (j + 1) := by omega
        rw [hidx]

theorem firstMatchIdx_some_lt (p : Shift → Bool) (l : List Shift) (j : ℕ)
    (h : firstMatchIdx p l = some j) : j < l.length := by
  induction l generalizing j with
  | nil => simp [firstMatchIdx] at h
  | cons s rest ih =>
    by_cases hp : p s
    · simp [firstMatchIdx, hp] at h
      subst h
      exact Nat.succ_pos _
    · simp [firstMatchIdx, hp] at h
      obtain ⟨a, ha, rfl⟩ := h
      simpa using Nat.succ_lt_succ (ih a ha)

theorem isInShift_eq_decide (m : ℤ) (s : Shift) :
    isInShift m s = decide (SpecContainsClosed m s) := by
  unfold isInShift SpecContainsClosed
  by_cases h : s.endHour * 60 + s.endMinute < s.startHour * 60 + s.startMinute
  · simp [h, h.not_le]
  · simp [h, not_lt.mp h]

theorem buildLocalTime_le_iff (t a b c d : ℤ) :
    buildLocalTime t a b ≤ buildLocalTime t c d ↔ a * 60 + b ≤ c * 60 + d := by
  unfold buildLocalTime
  rw [add_le_add_iff_left]
  constructor
  · intro h
    nlinarith
  · intro h
    nlinarith

theorem buildShiftEndTime_eq_spec (t : ℤ) (s : Shift) :
    buildShiftEndTime t s =
      (if s.endHour * 60 + s.endMinute ≤ s.startHour * 60 + s.startMinute
       then buildLocalTime t s.endHour s.endMinute + dayMs
       else buildLocalTime t s.endHour s.endMinute) := by
  unfold buildShiftEndTime
  by_cases h : s.endHour * 60 + s.endMinute ≤ s.startHour * 60 + s.startMinute
  · rw [if_pos ((buildLocalTime_le_iff t _ _ _ _).mpr h), if_pos h]
  · rw [if_neg (fun hc => h ((buildLocalTime_le_iff t _ _ _ _).mp hc)), if_neg h]

theorem inGraceWindow_eq_decide (t : ℤ) (s : Shift) :
    inGraceWindow t s = decide (SpecGraceWindow t s) := by
  simp only [inGraceWindow, SpecGraceWindow, buildShiftEndTime_eq_spec, Bool.decide_and]

theorem detectShiftForTime_cons (t : ℤ) (s0 : Shift) (rest : List Shift) :
    ∃ r : DetectedShiftMatch, detectShiftForTime t (s0 :: rest) = some r ∧
      r.shiftIndex < (s0 :: rest).length ∧ (s0 :: rest)[r.shiftIndex]? = some r.shift := by
  simp only [detectShiftForTime, firstMatchLoop_eq_firstMatchIdx]
  cases h : firstMatchIdx (isInShift (getHours t * 60 + getMinutes t)) (s0 :: rest) with
  | none => exact ⟨⟨0, s0⟩, rfl, Nat.succ_pos _, by simp⟩
  | some j =>
    have hj := firstMatchIdx_some_lt _ _ _ h
    refine ⟨⟨0 + j, (s0 :: rest).getD j default⟩, rfl, by simpa using hj, ?_⟩
    show (s0 :: rest)[0 + j]? = _
    rw [List.getElem?_eq_getElem (by simpa using hj), List.getD_eq_getElem _ _ hj]
    simp

theorem findShiftForPunchWithGrace_cons (t : ℤ) (s0 : Shift) (rest : List Shift) :
    ∃ r : DetectedShiftMatch, findShiftForPunchWithGrace t (s0 :: rest) = some r ∧
      r.shiftIndex < (s0 :: rest).length ∧ (s0 :: rest)[r.shiftIndex]? = some r.shift := by
  simp only [findShiftForPunchWithGrace, firstMatchLoop_eq_firstMatchIdx]
  cases h : firstMatchIdx (inGraceWindow t) (s0 :: rest) with
  | none => simpa using detectShiftForTime_cons t s0 rest
  | some j =>
    have hj := firstMatchIdx_some_lt _ _ _ h
    refine ⟨⟨0 + j, (s0 :: rest).getD j default⟩, rfl, by simpa using hj, ?_⟩
    show (s0 :: rest)[0 + j]? = _
    rw [List.getElem?_eq_getElem (by simpa using hj), List.getD_eq_getElem _ _ hj]
    simp

/-! ## Claim theorems -/

/-- Claim C1, counterexample.  Catalog: 9:00-10:00 then 10:00-11:00; timestamp
10:00.  The code's end-inclusive window makes the first shift match
(`shiftIndex = 0`), while the claim's half-open `[start, end)` window assigns
the punch to the second shift (`shiftIndex = 1`). -/
theorem claim_C1_counterexample :
    detectShiftForTime 36000000 [⟨9, 0, 10, 0, 0, 0, 0, 0, 0⟩, ⟨10, 0, 11, 0, 0, 0, 0, 0, 0⟩] =
      some ⟨0, ⟨9, 0, 10, 0, 0, 0, 0, 0, 0⟩⟩ ∧
    detectShiftSpecHalfOpen 36000000 [⟨9, 0, 10, 0, 0, 0, 0, 0, 0⟩, ⟨10, 0, 11, 0, 0, 0, 0, 0, 0⟩] =
      some ⟨1, ⟨10, 0, 11, 0, 0, 0, 0, 0, 0⟩⟩ ∧
    detectShiftForTime 36000000 [⟨9, 0, 10, 0, 0, 0, 0, 0, 0⟩, ⟨10, 0, 11, 0, 0, 0, 0, 0, 0⟩] ≠
      detectShiftSpecHalfOpen 36000000 [⟨9, 0, 10, 0, 0, 0, 0, 0, 0⟩, ⟨10, 0, 11, 0, 0, 0, 0, 0, 0⟩] := by
  refine ⟨by decide, by decide, by decide⟩

/-- Claim C1, amended: `detectShiftForTime` returns the first shift in catalog
order whose closed `[start, end]` minutes-of-day window contains the
timestamp's minutes of day (overnight shifts matching by
`time ≥ start ∨ time ≤ end`), and the first shift of the catalog when no
window contains it: it never reports a no-match for a non-empty catalog. -/
theorem claim_C1_amended (t : ℤ) (shifts : List Shift) :
    detectShiftForTime t shifts = detectShiftSpecClosed t shifts := by
  cases shifts with
  | nil => rfl
  | cons s0 rest =>
    simp only [detectShiftForTime, detectShiftSpecClosed, firstMatchLoop_eq_firstMatchIdx]
    rw [show isInShift (getHours t * 60 + getMinutes t) =
        (fun s => decide (SpecContainsClosed (getHours t * 60 + getMinutes t) s)) from
      funext fun s => isInShift_eq_decide _ s]
    cases h : firstMatchIdx
        (fun s => decide (SpecContainsClosed (getHours t * 60 + getMinutes t) s)) (s0 :: rest) with
    | none => rfl
    | some j =>
      have hj := firstMatchIdx_some_lt _ _ _ h
      simp only [Option.map_some']
      rw [List.getD_eq_getElem _ _ hj, List.getD_eq_getElem _ _ hj]
      simp

/-- Claim C6: `findShiftForPunchWithGrace` returns the first shift in catalog
order whose closed grace window `[start - graceBefore, end (+1 day when the
shift wraps midnight) + graceAfter]` contains the timestamp, and falls back to
the containment match `detectShiftForTime` when no grace window contains it. -/
theorem claim_C6 (t : ℤ) (shifts : List Shift) :
    findShiftForPunchWithGrace t shifts = findShiftSpecGrace t shifts := by
  cases shifts with
  | nil => rfl
  | cons s0 rest =>
    simp only [findShiftForPunchWithGrace, findShiftSpecGrace, firstMatchLoop_eq_firstMatchIdx]
    rw [show inGraceWindow t = (fun s => decide (SpecGraceWindow t s)) from
      funext fun s => inGraceWindow_eq_decide t s]
    cases h : firstMatchIdx (fun s => decide (SpecGraceWindow t s)) (s0 :: rest) with
    | none => rfl
    | some j =>
      have hj := firstMatchIdx_some_lt _ _ _ h
      simp only [Option.map_some']
      rw [List.getD_eq_getElem _ _ hj, List.getD_eq_getElem _ _ hj]
      simp

/-- Claim C10: both shift matchers return `null` exactly on an empty catalog,
and on a non-empty catalog their result carries a valid index whose catalog
entry is the returned shift. -/
theorem claim_C10 (t : ℤ) (shifts : List Shift) :
    (detectShiftForTime t shifts = none ↔ shifts = []) ∧
    (findShiftForPunchWithGrace t shifts = none ↔ shifts = []) ∧
    (∀ r : DetectedShiftMatch, detectShiftForTime t shifts = some r →
      r.shiftIndex < shifts.length ∧ shifts[r.shiftIndex]? = some r.shift) ∧
    (∀ r : DetectedShiftMatch, findShiftForPunchWithGrace t shifts = some r →
      r.shiftIndex < shifts.length ∧ shifts[r.shiftIndex]? = some r.shift) := by
  cases shifts with
  | nil =>
    refine ⟨by simp [detectShiftForTime], by simp [findShiftForPunchWithGrace], ?_, ?_⟩ <;>
      intro r hr <;> simp [detectShiftForTime, findShiftForPunchWithGrace] at hr
  | cons s0 rest =>
    obtain ⟨rd, hrd, hrdlen, hrdget⟩ := detectShiftForTime_cons t s0 rest
    obtain ⟨rg, hrg, hrglen, hrgget⟩ := findShiftForPunchWithGrace_cons t s0 rest
    refine ⟨by simp [hrd], by simp [hrg], ?_, ?_⟩
    · intro r hr
      rw [hrd] at hr
      cases Option.some.inj hr
      exact ⟨hrdlen, hrdget⟩
    · intro r hr
      rw [hrg] at hr
      cases Option.some.inj hr
      exact ⟨hrglen, hrgget⟩

/-- Claim C10, witness: concrete instantiation of the valid-index part at a
one-shift catalog and timestamp 0. -/
theorem claim_C10_witness :
    (0 : ℕ) < ([⟨9, 0, 17, 0, 15, 30, 3, 3, 5⟩] : List Shift).length ∧
    ([⟨9, 0, 17, 0, 15, 30, 3, 3, 5⟩] : List Shift)[(0 : ℕ)]? =
      some ⟨9, 0, 17, 0, 15, 30, 3, 3, 5⟩ :=
  (claim_C10 0 [⟨9, 0, 17, 0, 15, 30, 3, 3, 5⟩]).2.2.1 ⟨0, ⟨9, 0, 17, 0, 15, 30, 3, 3, 5⟩⟩
    (by decide)

/-- Claim C2: whenever a timestamp is missing/unparsable, or checkout is not
strictly after checkin, or the shift catalog is empty, the metrics degrade to
the all-zero record (the function is total, so nothing is thrown). -/
theorem claim_C2 (minOT : ℤ) (inTime? outTime? : Option ℤ) (shifts : List Shift)
    (h : inTime? = none ∨ outTime? = none ∨
      (∃ i o, inTime? = some i ∧ outTime? = some o ∧ o ≤ i) ∨ shifts = []) :
    calculateAttendanceMetrics minOT inTime? outTime? shifts = ZERO_METRICS := by
  rcases h with rfl | rfl | ⟨i, o, rfl, rfl, hle⟩ | rfl
  · rfl
  · cases inTime? <;> rfl
  · cases shifts with
    | nil => rfl
    | cons s rest =>
      simp only [calculateAttendanceMetrics]
      rw [if_pos hle]
  · cases inTime? <;> cases outTime? <;> rfl

/-- Claim C2, witness: checkout at 50 ms for a checkin at 100 ms. -/
theorem claim_C2_witness :
    calculateAttendanceMetrics 15 (some 100) (some 50) [⟨9, 0, 17, 0, 15, 30, 3, 3, 5⟩] =
      ZERO_METRICS :=
  claim_C2 15 (some 100) (some 50) [⟨9, 0, 17, 0, 15, 30, 3, 3, 5⟩]
    (Or.inr (Or.inr (Or.inl ⟨100, 50, rfl, rfl, by norm_num⟩)))

/-- Claim C5: the constructed shift end sits at the shift's end hour/minute on
the check-in's calendar day when that is strictly after the same-day start,
is advanced by exactly one day otherwise, and in either case is strictly after
the constructed start. -/
theorem claim_C5 (base : ℤ) (s : Shift) (hv : ValidShift s) :
    (buildLocalTime base s.startHour s.startMinute <
        buildLocalTime base s.endHour s.endMinute →
      buildShiftEndTime base s = buildLocalTime base s.endHour s.endMinute) ∧
    (buildLocalTime base s.endHour s.endMinute ≤
        buildLocalTime base s.startHour s.startMinute →
      buildShiftEndTime base s = buildLocalTime base s.endHour s.endMinute + dayMs) ∧
    buildLocalTime base s.startHour s.startMinute < buildShiftEndTime base s := by
  obtain ⟨h1, h2, h3, h4, h5, h6, h7, h8⟩ := hv
  have hstart : buildLocalTime base s.startHour s.startMinute =
      base.ediv dayMs * dayMs + (s.startHour * 60 + s.startMinute) * 60000 := rfl
  have hend : buildLocalTime base s.endHour s.endMinute =
      base.ediv dayMs * dayMs + (s.endHour * 60 + s.endMinute) * 60000 := rfl
  simp only [buildShiftEndTime]
  by_cases hc : buildLocalTime base s.endHour s.endMinute ≤
      buildLocalTime base s.startHour s.startMinute
  · rw [if_pos hc]
    refine ⟨fun hlt => absurd hc (not_le.mpr hlt), fun _ => rfl, ?_⟩
    rw [hstart, hend]
    have hday : dayMs = 86400000 := rfl
    rw [hday]
    linarith
  · rw [if_neg hc]
    push_neg at hc
    exact ⟨fun _ => rfl, fun hle => absurd hle (not_le.mpr hc), hc⟩

/-- Claim C5, witness: overnight shift 22:00-06:00 anchored on day 0. -/
theorem claim_C5_witness :
    buildLocalTime 0 (22 : ℤ) 0 < buildShiftEndTime 0 ⟨22, 0, 6, 0, 0, 0, 3, 3, 5⟩ :=
  (claim_C5 0 ⟨22, 0, 6, 0, 0, 0, 3, 3, 5⟩ (by decide)).2.2

/-- A record whose checkout is already set is left untouched by the sweeper
(the `WHERE r.out_time IS NULL` selection). -/
theorem sweepRecord_closed (shiftsOf : String → List Shift) (minOT now : ℤ)
    (r : AttendanceRecord) (h : r.outTime ≠ none) :
    sweepRecord shiftsOf minOT now r = r := by
  unfold sweepRecord
  cases hout : r.outTime with
  | none => exact absurd hout h
  | some v => rfl

/-- On an open record the sweeper either leaves it unchanged or closes it at
the `shift end + graceAfter` deadline. -/
theorem sweepRecord_open_cases (shiftsOf : String → List Shift) (minOT now : ℤ)
    (r : AttendanceRecord) (h : r.outTime = none) :
    sweepRecord shiftsOf minOT now r = r ∨
    (sweepRecord shiftsOf minOT now r).outTime =
      some (getShiftEndWithGrace r.inTime (resolveShift r.inTime (shiftsOf r.employeeType))) := by
  unfold sweepRecord
  rw [h]
  cases hsh : shiftsOf r.employeeType with
  | nil => exact Or.inl rfl
  | cons s rest =>
    by_cases hnow : getShiftEndWithGrace r.inTime (resolveShift r.inTime (s :: rest)) ≤ now
    · right
      rw [if_pos hnow]
    · left
      rw [if_neg hnow]

/-- Sweeping twice with the same clock changes nothing on the second pass. -/
theorem sweepRecord_same_idem (shiftsOf : String → List Shift) (minOT now : ℤ)
    (r : AttendanceRecord) :
    sweepRecord shiftsOf minOT now (sweepRecord shiftsOf minOT now r) =
      sweepRecord shiftsOf minOT now r := by
  by_cases h : (sweepRecord shiftsOf minOT now r).outTime = none
  · have hr : r.outTime = none := by
      by_contra hne
      rw [sweepRecord_closed shiftsOf minOT now r hne] at h
      exact hne h
    rcases sweepRecord_open_cases shiftsOf minOT now r hr with heq | hsome
    · rw [heq]
      exact heq
    · rw [h] at hsome
      exact absurd hsome (by simp)
  · exact sweepRecord_closed shiftsOf minOT now _ h

/-- Claim C9: the auto-checkout sweep closes each record at most once.  It
never touches a record whose checkout is set; when it mutates an open record
it sets the checkout to the `shift end + graceAfter` deadline; a record left
closed by one run is a no-op for any later run; and a whole second sweep with
the same clock is the identity on the already-swept store. -/
theorem claim_C9 (shiftsOf : String → List Shift) (minOT now now2 : ℤ)
    (records : List AttendanceRecord) :
    autoCheckoutOverdue shiftsOf minOT now (autoCheckoutOverdue shiftsOf minOT now records) =
      autoCheckoutOverdue shiftsOf minOT now records ∧
    (∀ r : AttendanceRecord, r.outTime ≠ none → sweepRecord shiftsOf minOT now r = r) ∧
    (∀ r : AttendanceRecord, (sweepRecord shiftsOf minOT now r).outTime ≠ none →
      sweepRecord shiftsOf minOT now2 (sweepRecord shiftsOf minOT now r) =
        sweepRecord shiftsOf minOT now r) ∧
    (∀ r : AttendanceRecord, r.outTime = none → sweepRecord shiftsOf minOT now r = r ∨
      (sweepRecord shiftsOf minOT now r).outTime =
        some (getShiftEndWithGrace r.inTime (resolveShift r.inTime (shiftsOf r.employeeType)))) := by
  refine ⟨?_, fun r h => sweepRecord_closed shiftsOf minOT now r h,
    fun r h => sweepRecord_closed shiftsOf minOT now2 _ h,
    fun r h => sweepRecord_open_cases shiftsOf minOT now r h⟩
  simp only [autoCheckoutOverdue]
  induction records with
  | nil => rfl
  | cons r rs ih => simp [sweepRecord_same_idem, ih]

/-- Claim C9, witness: an already-closed record is untouched by a sweep. -/
theorem claim_C9_witness :
    sweepRecord (fun _ => []) 15 0 ⟨0, some 5, "worker", 0, 0, 0⟩ =
      ⟨0, some 5, "worker", 0, 0, 0⟩ :=
  (claim_C9 (fun _ => []) 15 0 0 []).2.1 ⟨0, some 5, "worker", 0, 0, 0⟩ (by simp)

/-- Projection of the OT field of the metrics for a valid input. -/
theorem metrics_ot_valid (minOT inT outT : ℤ) (s0 : Shift) (rest : List Shift)
    (h : ¬ outT ≤ inT) :
    (calculateAttendanceMetrics minOT (some inT) (some outT) (s0 :: rest)).ot_hours_decimal =
      otHours minOT outT (buildShiftEndTime inT (resolveShift inT (s0 :: rest)))
        (resolveShift inT (s0 :: rest)).graceAfter := by
  simp only [calculateAttendanceMetrics]
  rw [if_neg h]

/-- Projection of the total-hours field of the metrics for a valid input. -/
theorem metrics_total_valid (minOT inT outT : ℤ) (s0 : Shift) (rest : List Shift)
    (h : ¬ outT ≤ inT) :
    (calculateAttendanceMetrics minOT (some inT) (some outT)
        (s0 :: rest)).total_working_hours_decimal =
      max 0 (round2 ((outT - inT : ℚ) / 3600000)) := by
  simp only [calculateAttendanceMetrics]
  rw [if_neg h]

theorem one_le_round_of_half_le (x : ℚ) (h : 1 / 2 ≤ x) : 1 ≤ round x := by
  rw [round_eq]
  exact Int.le_floor.mpr (by push_cast; linarith)

theorem round2_sixtieth_pos (k : ℤ) (hk : 1 ≤ k) : 0 < round2 ((k : ℚ) / 60) := by
  unfold round2
  have hk1 : (1 : ℚ) ≤ (k : ℚ) := by exact_mod_cast hk
  have h2 : 1 ≤ round ((k : ℚ) / 60 * 100) := one_le_round_of_half_le _ (by linarith)
  have h3 : (1 : ℚ) ≤ (round ((k : ℚ) / 60 * 100) : ℚ) := by exact_mod_cast h2
  linarith

/-- Claim C3: for a valid check-in/check-out pair (strictly increasing, with a
non-empty catalog) and the matched shift, the computed OT hours are non-zero
exactly when checkout exceeds shift end + graceAfter and the rounded minute
count from shift end reaches `MIN_OT_MINUTES`; in that case they equal that
minute count over 60, rounded to two decimals, and otherwise they are zero. -/
theorem claim_C3 (minOT inT outT : ℤ) (shifts : List Shift)
    (hmin : 1 ≤ minOT) (hne : shifts ≠ []) (hlt : inT < outT) :
    ((calculateAttendanceMetrics minOT (some inT) (some outT) shifts).ot_hours_decimal ≠ 0 ↔
      (buildShiftEndTime inT (resolveShift inT shifts) +
          (resolveShift inT shifts).graceAfter * 60 * 1000 < outT ∧
        minOT ≤ round ((outT - buildShiftEndTime inT (resolveShift inT shifts) : ℚ) / 60000))) ∧
    ((buildShiftEndTime inT (resolveShift inT shifts) +
          (resolveShift inT shifts).graceAfter * 60 * 1000 < outT ∧
        minOT ≤ round ((outT - buildShiftEndTime inT (resolveShift inT shifts) : ℚ) / 60000)) →
      (calculateAttendanceMetrics minOT (some inT) (some outT) shifts).ot_hours_decimal =
        round2 ((round ((outT - buildShiftEndTime inT (resolveShift inT shifts) : ℚ) / 60000) : ℚ)
          / 60)) ∧
    (¬ (buildShiftEndTime inT (resolveShift inT shifts) +
          (resolveShift inT shifts).graceAfter * 60 * 1000 < outT ∧
        minOT ≤ round ((outT - buildShiftEndTime inT (resolveShift inT shifts) : ℚ) / 60000)) →
      (calculateAttendanceMetrics minOT (some inT) (some outT) shifts).ot_hours_decimal = 0) := by
  obtain ⟨s0, rest, rfl⟩ := List.exists_cons_of_ne_nil hne
  rw [metrics_ot_valid minOT inT outT s0 rest (not_le.mpr hlt)]
  set E := buildShiftEndTime inT (resolveShift inT (s0 :: rest)) with hE
  set G := (resolveShift inT (s0 :: rest)).graceAfter with hG
  unfold otHours
  by_cases hthr : E + G * 60 * 1000 < outT
  · rw [if_pos hthr]
    by_cases hmin2 : minOT ≤ round ((outT - E : ℚ) / 60000)
    · rw [if_pos hmin2]
      have hpos := round2_sixtieth_pos _ (le_trans hmin hmin2)
      exact ⟨iff_of_true (ne_of_gt hpos) ⟨hthr, hmin2⟩, fun _ => rfl,
        fun hc => absurd ⟨hthr, hmin2⟩ hc⟩
    · rw [if_neg hmin2]
      exact ⟨iff_of_false (by simp) (fun hc => hmin2 hc.2), fun hc => absurd hc.2 hmin2,
        fun _ => rfl⟩
  · rw [if_neg hthr]
    exact ⟨iff_of_false (by simp) (fun hc => hthr hc.1), fun hc => absurd hc.1 hthr,
      fun _ => rfl⟩

/-- Claim C3, witness: 9:00-17:00 shift with graceAfter 30, checkout 17:45,
MIN_OT_MINUTES 15: OT is recorded (45 minutes → 0.75 h). -/
theorem claim_C3_witness :
    (calculateAttendanceMetrics 15 (some 32400000) (some 63900000)
        [⟨9, 0, 17, 0, 15, 30, 3, 3, 5⟩]).ot_hours_decimal ≠ 0 :=
  ((claim_C3 15 32400000 63900000 [⟨9, 0, 17, 0, 15, 30, 3, 3, 5⟩] (by norm_num)
      (by simp) (by norm_num)).1).mpr (by
    have h1 : buildShiftEndTime 32400000
        (resolveShift 32400000 [⟨9, 0, 17, 0, 15, 30, 3, 3, 5⟩]) = 61200000 := by decide
    rw [h1]
    constructor
    · decide
    · norm_num [round_eq])

theorem round_nonneg_of_nonneg (x : ℚ) (h : 0 ≤ x) : 0 ≤ round x := by
  rw [round_eq]
  exact Int.le_floor.mpr (by push_cast; linarith)

theorem round2_nonneg (x : ℚ) (h : 0 ≤ x) : 0 ≤ round2 x := by
  unfold round2
  have h1 := round_nonneg_of_nonneg (x * 100) (by nlinarith)
  have h2 : (0 : ℚ) ≤ (round (x * 100) : ℚ) := by exact_mod_cast h1
  linarith

/-- `round2` is the identity on two-decimal values. -/
theorem round2_intCast_div (n : ℤ) : round2 ((n : ℚ) / 100) = (n : ℚ) / 100 := by
  unfold round2
  have h : ((n : ℚ) / 100) * 100 = (n : ℚ) := by field_simp
  rw [h, round_intCast]

theorem max_zero_cent (n : ℤ) : max 0 ((n : ℚ) / 100) = ((max 0 n : ℤ) : ℚ) / 100 := by
  rcases le_total 0 n with h | h
  · rw [max_eq_right h, max_eq_right (div_nonneg (by exact_mod_cast h) (by norm_num))]
  · have hq : (n : ℚ) ≤ 0 := by exact_mod_cast h
    rw [max_eq_left h, max_eq_left (by linarith)]
    norm_num

theorem otHours_isCent (minOT outTime shiftEndTime graceAfter : ℤ) :
    ∃ n : ℤ, otHours minOT outTime shiftEndTime graceAfter = (n : ℚ) / 100 := by
  unfold otHours round2
  split_ifs
  · exact ⟨_, rfl⟩
  · exact ⟨0, by norm_num⟩
  · exact ⟨0, by norm_num⟩

theorem regularShiftHours_nonneg (inT outT : ℤ) (shifts : List Shift) :
    0 ≤ regularShiftHours inT outT shifts := by
  cases shifts with
  | nil => simp [regularShiftHours]
  | cons s rest =>
    simp only [regularShiftHours]
    split_ifs <;> exact le_max_left 0 _

theorem regularShiftHours_isCent (inT outT : ℤ) (s0 : Shift) (rest : List Shift) :
    ∃ n : ℤ, regularShiftHours inT outT (s0 :: rest) = (n : ℚ) / 100 := by
  simp only [regularShiftHours, round2]
  split_ifs
  · exact ⟨_, max_zero_cent _⟩
  · exact ⟨_, max_zero_cent _⟩

/-- Claim C4, counterexample.  A record with checkin 00:00, checkout 08:00
(8 worked hours) and stored OT `X = 5`, whose employee category has an empty
shift catalog: the claimed total is `8 + 5 = 13`, but the recompute degrades
the metrics to zero and reports `round2(0 + 5) = 5`. -/
theorem claim_C4_counterexample :
    (reportRecompute 15 0 28800000 [] 5).1 = 5 ∧
    round2 ((28800000 - 0 : ℚ) / 3600000) + 5 = 13 ∧ (5 : ℚ) ≠ 13 := by
  refine ⟨?_, ?_, by norm_num⟩
  · norm_num [reportRecompute, calculateAttendanceMetrics, regularShiftHours, ZERO_METRICS,
      round2, round_eq]
  · norm_num [round2, round_eq]

/-- Claim C4, amended: for a record with both timestamps present, checkout
strictly after checkin and a non-empty catalog for its category: if the stored
ot_hours_decimal `X` is positive the recomputed total is
`round2(worked-hours-rounded + X)` — equal to `worked + X` whenever `X` is a
two-decimal value; else if the auto-calculated OT is positive the total is
regular shift hours plus that OT; else the total is the rounded worked hours.
The reported OT is `X` when positive, the auto OT otherwise. -/
theorem claim_C4_amended (minOT inT outT : ℤ) (shifts : List Shift) (dbOT : ℚ)
    (hne : shifts ≠ []) (hlt : inT < outT) :
    (0 < dbOT →
      (reportRecompute minOT inT outT shifts dbOT).1 =
        round2 (round2 ((outT - inT : ℚ) / 3600000) + dbOT)) ∧
    (0 < dbOT → (∀ n : ℤ, dbOT = (n : ℚ) / 100 →
      (reportRecompute minOT inT outT shifts dbOT).1 =
        round2 ((outT - inT : ℚ) / 3600000) + dbOT)) ∧
    (¬ 0 < dbOT →
      0 < (calculateAttendanceMetrics minOT (some inT) (some outT) shifts).ot_hours_decimal →
      (reportRecompute minOT inT outT shifts dbOT).1 =
        regularShiftHours inT outT shifts +
          (calculateAttendanceMetrics minOT (some inT) (some outT) shifts).ot_hours_decimal) ∧
    (¬ 0 < dbOT →
      ¬ 0 < (calculateAttendanceMetrics minOT (some inT) (some outT) shifts).ot_hours_decimal →
      (reportRecompute minOT inT outT shifts dbOT).1 =
        round2 ((outT - inT : ℚ) / 3600000)) ∧
    (reportRecompute minOT inT outT shifts dbOT).2 =
      (if 0 < dbOT then dbOT
       else (calculateAttendanceMetrics minOT (some inT) (some outT) shifts).ot_hours_decimal) := by
  obtain ⟨s0, rest, rfl⟩ := List.exists_cons_of_ne_nil hne
  have hnle : ¬ outT ≤ inT := not_le.mpr hlt
  have hw0 : (0 : ℚ) ≤ round2 ((outT - inT : ℚ) / 3600000) := by
    apply round2_nonneg
    apply div_nonneg _ (by norm_num)
    have : (inT : ℚ) ≤ (outT : ℚ) := by exact_mod_cast hlt.le
    linarith
  have htot : (calculateAttendanceMetrics minOT (some inT) (some outT)
      (s0 :: rest)).total_working_hours_decimal = round2 ((outT - inT : ℚ) / 3600000) :=
    (metrics_total_valid minOT inT outT s0 rest hnle).trans (max_eq_right hw0)
  refine ⟨fun hdb => ?_, fun hdb n hn => ?_, fun hdb hot => ?_, fun hdb hot => ?_, ?_⟩
  · simp only [reportRecompute]
    rw [if_pos hdb, htot]
    exact max_eq_right (round2_nonneg _ (by linarith))
  · simp only [reportRecompute]
    rw [if_pos hdb, htot, hn]
    have hsum : round2 ((outT - inT : ℚ) / 3600000) + (n : ℚ) / 100 =
        ((round (((outT - inT : ℚ) / 3600000) * 100) + n : ℤ) : ℚ) / 100 := by
      unfold round2
      push_cast
      ring
    have hnn : (0 : ℚ) ≤ round2 ((outT - inT : ℚ) / 3600000) + (n : ℚ) / 100 := by
      have hpos : (0 : ℚ) < (n : ℚ) / 100 := by rw [← hn]; exact hdb
      linarith
    rw [hsum, round2_intCast_div, ← hsum]
    exact max_eq_right hnn
  · simp only [reportRecompute]
    rw [if_neg hdb, if_neg hdb, if_pos hot]
    obtain ⟨a, ha⟩ := regularShiftHours_isCent inT outT s0 rest
    have hoc : ∃ n : ℤ, (calculateAttendanceMetrics minOT (some inT) (some outT)
        (s0 :: rest)).ot_hours_decimal = (n : ℚ) / 100 := by
      rw [metrics_ot_valid minOT inT outT s0 rest hnle]
      exact otHours_isCent _ _ _ _
    obtain ⟨b, hb⟩ := hoc
    have hsum : regularShiftHours inT outT (s0 :: rest) +
        (calculateAttendanceMetrics minOT (some inT) (some outT)
          (s0 :: rest)).ot_hours_decimal = ((a + b : ℤ) : ℚ) / 100 := by
      rw [ha, hb]
      push_cast
      ring
    rw [hsum, round2_intCast_div, ← hsum]
    exact max_eq_right (by linarith [regularShiftHours_nonneg inT outT (s0 :: rest), hot])
  · simp only [reportRecompute]
    rw [if_neg hdb, if_neg hdb, if_neg hot, htot]
  · simp only [reportRecompute]

/-- Claim C4 (amended), witness: 9:00-17:00 punch pair with manual OT 2 h
reports total = worked hours + 2. -/
theorem claim_C4_witness :
    (reportRecompute 15 32400000 61200000 [⟨9, 0, 17, 0, 15, 30, 3, 3, 5⟩] 2).1 =
      round2 ((61200000 - 32400000 : ℚ) / 3600000) + 2 :=
  (claim_C4_amended 15 32400000 61200000 [⟨9, 0, 17, 0, 15, 30, 3, 3, 5⟩] 2 (by simp)
      (by norm_num)).2.1 (by norm_num) 200 (by norm_num)

/-! ## Sorted-list lemmas for the presence debouncer -/

theorem length_insertDesc (x : ℤ) (l : List ℤ) : (insertDesc x l).length = l.length + 1 := by
  induction l with
  | nil => rfl
  | cons y ys ih =>
    simp only [insertDesc]
    split_ifs <;> simp [ih]

theorem mem_insertDesc (a x : ℤ) (l : List ℤ) : a ∈ insertDesc x l ↔ a = x ∨ a ∈ l := by
  induction l with
  | nil => simp [insertDesc]
  | cons y ys ih =>
    simp only [insertDesc]
    split_ifs
    · simp
    · simp only [List.mem_cons, ih]
      tauto

theorem length_sortDesc (l : List ℤ) : (sortDesc l).length = l.length := by
  induction l with
  | nil => rfl
  | cons x xs ih => simp [sortDesc, length_insertDesc, ih]

theorem mem_sortDesc (a : ℤ) (l : List ℤ) : a ∈ sortDesc l ↔ a ∈ l := by
  induction l with
  | nil => simp [sortDesc]
  | cons x xs ih => simp [sortDesc, mem_insertDesc, ih]

theorem sorted_insertDesc (x : ℤ) (l : List ℤ) (h : l.Sorted (· ≥ ·)) :
    (insertDesc x l).Sorted (· ≥ ·) := by
  induction l with
  | nil => simp [insertDesc]
  | cons y ys ih =>
    simp only [insertDesc]
    rw [List.sorted_cons] at h
    split_ifs with hxy
    · rw [List.sorted_cons]
      refine ⟨?_, List.sorted_cons.mpr h⟩
      intro b hb
      rcases List.mem_cons.mp hb with rfl | hby
      · exact hxy
      · exact le_trans (h.1 b hby) hxy
    · rw [List.sorted_cons]
      refine ⟨?_, ih h.2⟩
      intro b hb
      rcases (mem_insertDesc b x ys).mp hb with rfl | hby
      · exact le_of_not_le hxy
      · exact h.1 b hby

theorem sorted_sortDesc (l : List ℤ) : (sortDesc l).Sorted (· ≥ ·) := by
  induction l with
  | nil => simp [sortDesc]
  | cons x xs ih => exact sorted_insertDesc x _ ih

theorem headD_mem_of_ne_nil (l : List ℤ) (hl : l ≠ []) : l.headD 0 ∈ l := by
  cases l with
  | nil => exact absurd rfl hl
  | cons x xs => simp

theorem headD_ge_of_sorted (l : List ℤ) (h : l.Sorted (· ≥ ·)) :
    ∀ b ∈ l, b ≤ l.headD 0 := by
  cases l with
  | nil => intro b hb; simp at hb
  | cons x xs =>
    rw [List.sorted_cons] at h
    intro b hb
    rcases List.mem_cons.mp hb with rfl | hbx
    · simp
    · simpa using h.1 b hbx

theorem getLastD_fallback_indep (l : List ℤ) (d1 d2 : ℤ) (hl : l ≠ []) :
    l.getLastD d1 = l.getLastD d2 := by
  cases l with
  | nil => exact absurd rfl hl
  | cons x xs => rw [List.getLastD_cons, List.getLastD_cons]

theorem getLastD_mem_of_ne_nil (l : List ℤ) (hl : l ≠ []) : l.getLastD 0 ∈ l := by
  induction l with
  | nil => exact absurd rfl hl
  | cons x xs ih =>
    cases xs with
    | nil => simp [List.getLastD_cons]
    | cons y ys =>
      rw [List.getLastD_cons, getLastD_fallback_indep (y :: ys) x 0 (by simp)]
      exact List.mem_cons_of_mem x (ih (by simp))

theorem getLastD_le_of_sorted (l : List ℤ) (h : l.Sorted (· ≥ ·)) :
    ∀ b ∈ l, l.getLastD 0 ≤ b := by
  induction l with
  | nil => intro b hb; simp at hb
  | cons x xs ih =>
    rw [List.sorted_cons] at h
    intro b hb
    cases xs with
    | nil =>
      rcases List.mem_cons.mp hb with rfl | hbx
      · simp [List.getLastD_cons]
      · simp at hbx
    | cons y ys =>
      rw [List.getLastD_cons, getLastD_fallback_indep (y :: ys) x 0 (by simp)]
      rcases List.mem_cons.mp hb with rfl | hbx
      · exact le_trans (ih h.2 y (by simp)) (h.1 y (by simp))
      · exact ih h.2 b hbx

/-- Claim C7, counterexample.  With `presenceCount = 0` and an empty detection
window, the claimed rule (a) `count ≥ presenceCount` holds (`0 ≥ 0`), so the
claimed iff demands `true`; the code returns `false` (its zero-detection
rejection fires first), so the claimed characterization fails for that
threshold triple. -/
theorem claim_C7_counterexample :
    checkPresenceRequirement [] 0 3 0 5 = false ∧
    (0 : ℤ) ≤ ((([] : List ℤ).filter fun t => decide ((0 : ℤ) - 5 * 1000 ≤ t)).length : ℤ) := by
  exact ⟨rfl, by simp⟩

/-- Claim C7, amended: for thresholds with `presenceCount ≥ 1` (the catalog
defaults every shift to 3), `checkPresenceRequirement` returns true iff, among
the detections at or after `now - presenceWindow` seconds, (a) their count
reaches `presenceCount`, or (b) at least two exist and the span between the
oldest and the newest reaches `presenceTime` seconds; and it returns false
whenever no detection falls in the window. -/
theorem claim_C7_amended (store : List ℤ) (now presenceTime presenceCount presenceWindow : ℤ)
    (hpc : 1 ≤ presenceCount) :
    (checkPresenceRequirement store now presenceTime presenceCount presenceWindow = true ↔
      (presenceCount ≤ ((store.filter fun t => decide (now - presenceWindow * 1000 ≤ t)).length : ℤ) ∨
       (2 ≤ (store.filter fun t => decide (now - presenceWindow * 1000 ≤ t)).length ∧
        ∃ newest ∈ store.filter fun t => decide (now - presenceWindow * 1000 ≤ t),
        ∃ oldest ∈ store.filter fun t => decide (now - presenceWindow * 1000 ≤ t),
          (∀ b ∈ store.filter fun t => decide (now - presenceWindow * 1000 ≤ t),
            oldest ≤ b ∧ b ≤ newest) ∧
          (presenceTime : ℚ) ≤ ((newest : ℚ) - (oldest : ℚ)) / 1000))) ∧
    ((store.filter fun t => decide (now - presenceWindow * 1000 ≤ t)) = [] →
      checkPresenceRequirement store now presenceTime presenceCount presenceWindow = false) := by
  set F := store.filter fun t => decide (now - presenceWindow * 1000 ≤ t) with hF
  have hlen : (sortDesc F).length = F.length := length_sortDesc F
  have hmem : ∀ a : ℤ, a ∈ sortDesc F ↔ a ∈ F := fun a => mem_sortDesc a F
  have hsorted := sorted_sortDesc F
  simp only [checkPresenceRequirement, ← hF]
  by_cases h0 : (sortDesc F).length = 0
  · have hF0 : F = [] := List.length_eq_zero.mp (hlen ▸ h0)
    rw [if_pos h0]
    constructor
    · constructor
      · intro hfalse
        exact absurd hfalse (by simp)
      · intro hc
        rcases hc with hc | hc
        · rw [hF0] at hc
          simp at hc
          omega
        · rw [hF0] at hc
          simp at hc
    · intro _
      rfl
  · have hFne : F ≠ [] := fun hcon => h0 (by rw [hlen, hcon]; rfl)
    rw [if_neg h0]
    refine ⟨?_, fun hcon => absurd hcon hFne⟩
    by_cases hcnt : presenceCount ≤ ((sortDesc F).length : ℤ)
    · rw [if_pos hcnt]
      simp only [hlen] at hcnt
      exact iff_of_true rfl (Or.inl hcnt)
    · rw [if_neg hcnt]
      simp only [hlen] at hcnt
      by_cases h2 : 2 ≤ (sortDesc F).length
      · rw [if_pos h2]
        simp only [hlen] at h2
        have hRne : sortDesc F ≠ [] := by
          intro hcon
          rw [hcon] at hlen
          simp at hlen
          exact hFne (List.length_eq_zero.mp hlen.symm)
        constructor
        · intro htrue
          refine Or.inr ⟨h2, (sortDesc F).headD 0, (hmem _).mp (headD_mem_of_ne_nil _ hRne),
            (sortDesc F).getLastD 0, (hmem _).mp (getLastD_mem_of_ne_nil _ hRne), ?_, ?_⟩
          · intro b hb
            exact ⟨getLastD_le_of_sorted _ hsorted b ((hmem b).mpr hb),
              headD_ge_of_sorted _ hsorted b ((hmem b).mpr hb)⟩
          · exact of_decide_eq_true htrue
        · intro hc
          rcases hc with hc | hc
          · exact absurd hc hcnt
          · obtain ⟨_, ne, hne, old, hold, hbounds, hspan⟩ := hc
            have hhead : (sortDesc F).headD 0 = ne := by
              have h1 : ne ≤ (sortDesc F).headD 0 :=
                headD_ge_of_sorted _ hsorted ne ((hmem ne).mpr hne)
              have h2 : (sortDesc F).headD 0 ≤ ne :=
                (hbounds _ ((hmem _).mp (headD_mem_of_ne_nil _ hRne))).2
              exact le_antisymm h2 h1
            have hlast : (sortDesc F).getLastD 0 = old := by
              have h1 : (sortDesc F).getLastD 0 ≤ old :=
                getLastD_le_of_sorted _ hsorted old ((hmem old).mpr hold)
              have h2 : old ≤ (sortDesc F).getLastD 0 :=
                (hbounds _ ((hmem _).mp (getLastD_mem_of_ne_nil _ hRne))).1
              exact le_antisymm h1 h2
            rw [decide_eq_true_eq, hhead, hlast]
            exact hspan
      · rw [if_neg h2]
        simp only [hlen] at h2
        constructor
        · intro hfalse
          exact absurd hfalse (by simp)
        · intro hc
          rcases hc with hc | hc
          · exact absurd hc hcnt
          · exact absurd hc.1 h2

/-- Claim C7, witness: two detections 3.5 seconds apart inside the window with
`presenceTime = 3` and `presenceCount = 3` satisfy the duration arm. -/
theorem claim_C7_witness :
    checkPresenceRequirement [1000, 4500] 5000 3 3 5 = true :=
  (claim_C7_amended [1000, 4500] 5000 3 3 5 (by norm_num)).1.mpr
    (Or.inr ⟨by decide, 4500, by decide, 1000, by decide, by decide, by norm_num⟩)

/-! ## Parser lemmas -/

theorem digitsToInt_foldl_nonneg (ds : List Char) (h : ∀ c ∈ ds, jsIsDigit c = true) :
    ∀ a : ℤ, 0 ≤ a → 0 ≤ ds.foldl (fun a c => a * 10 + ((c.toNat : ℤ) - 48)) a := by
  induction ds with
  | nil => intro a ha; simpa
  | cons c cs ih =>
    intro a ha
    simp only [List.foldl_cons]
    apply ih fun x hx => h x (List.mem_cons_of_mem c hx)
    have hc := h c (List.mem_cons_self c cs)
    simp only [jsIsDigit, Bool.and_eq_true, decide_eq_true_eq] at hc
    have h48 : (48 : ℤ) ≤ (c.toNat : ℤ) := by exact_mod_cast hc.1
    nlinarith

theorem jsParseIntCore_orZero_nonneg (s : List Char) : 0 ≤ orZero (jsParseIntCore s) := by
  unfold jsParseIntCore orZero
  by_cases h : (s.takeWhile jsIsDigit).isEmpty
  · simp [h]
  · rw [if_neg h]
    simp only [Option.getD_some]
    exact digitsToInt_foldl_nonneg _ (fun c hc => List.mem_takeWhile_imp hc) 0 (le_refl 0)

theorem jsParseInt_filter_nonneg (xs : List Char) :
    0 ≤ orZero (jsParseInt (xs.filter jsIsDigit)) := by
  unfold jsParseInt
  generalize hT : (xs.filter jsIsDigit).dropWhile isJsSpace = t
  have htdig : ∀ c ∈ t, jsIsDigit c = true := by
    intro c hc
    rw [← hT] at hc
    have h1 := (List.dropWhile_sublist (p := isJsSpace)).subset hc
    exact (List.mem_filter.mp h1).2
  cases t with
  | nil => simp [orZero]
  | cons c rest =>
    have hc := htdig c (List.mem_cons_self c rest)
    have hcm : ¬ c = '-' := fun hcon => by
      rw [hcon] at hc
      exact absurd hc (by decide)
    have hcp : ¬ c = '+' := fun hcon => by
      rw [hcon] at hc
      exact absurd hc (by decide)
    show 0 ≤ orZero (if c = '-' then Option.map (fun n => -n) (jsParseIntCore rest)
      else if c = '+' then jsParseIntCore rest else jsParseIntCore (c :: rest))
    rw [if_neg hcm, if_neg hcp]
    exact jsParseIntCore_orZero_nonneg (c :: rest)

/-- Claim C8, counterexample: `parseTime "25:00"` returns hour 25, outside the
claimed 0-23 range, and does not degrade to `{hour: 0, minute: 0}` either. -/
theorem claim_C8_counterexample :
    parseTime "25:00" = ⟨25, 0⟩ ∧ ¬ (parseTime "25:00").hour ≤ 23 ∧
      parseTime "25:00" ≠ ⟨0, 0⟩ := by
  refine ⟨by decide, by decide, by decide⟩

/-- Claim C8, amended: `parseTime` is total (never throws).  AM/PM markers are
stripped case-insensitively; an AM hour of 12 becomes 0; a PM hour other than
12 gets 12 added; a numerically unparsable component degrades to 0 and the
minute component is always nonnegative.  The output ranges hour 0-23 and
minute 0-59 hold whenever the parsed numeric tokens are in range (hour 0-23,
or 0-12 when a PM marker alone is present; minute 0-59); out-of-range tokens
pass through unclamped (e.g. "25:00" yields hour 25). -/
theorem claim_C8_amended (s : String) :
    (parseTime s).minute = rawMinute s ∧
    0 ≤ rawMinute s ∧
    (timeHasAM s = true → rawHour s = 12 → (parseTime s).hour = 0) ∧
    (timeHasAM s = false → timeHasPM s = true → rawHour s ≠ 12 →
      (parseTime s).hour = rawHour s + 12) ∧
    (0 ≤ rawHour s →
      (timeHasAM s = false → timeHasPM s = true → rawHour s ≤ 12) →
      (timeHasAM s = true ∨ timeHasPM s = false → rawHour s ≤ 23) →
      0 ≤ (parseTime s).hour ∧ (parseTime s).hour ≤ 23) ∧
    (rawMinute s ≤ 59 → (parseTime s).minute ≤ 59) := by
  have hhour : (parseTime s).hour =
      (if timeHasAM s = true then (if rawHour s = 12 then 0 else rawHour s)
       else if timeHasPM s = true then (if rawHour s = 12 then 12 else rawHour s + 12)
       else rawHour s) := rfl
  have hmin : (parseTime s).minute = rawMinute s := rfl
  refine ⟨hmin, ?_, ?_, ?_, ?_, fun h => hmin ▸ h⟩
  · unfold rawMinute
    exact jsParseInt_filter_nonneg _
  · intro h1 h2
    rw [hhour, if_pos h1, if_pos h2]
  · intro h1 h2 h3
    rw [hhour, if_neg (by simp [h1]), if_pos h2, if_neg h3]
  · intro h0 hpm ham
    rw [hhour]
    split_ifs with h1 h2 h3 h4
    · exact ⟨le_refl 0, by norm_num⟩
    · exact ⟨h0, ham (Or.inl h1)⟩
    · exact ⟨by norm_num, by norm_num⟩
    · have hb : rawHour s ≤ 12 := hpm (by simpa using h1) h3
      constructor
      · linarith
      · omega
    · exact ⟨h0, ham (Or.inr (by simpa using h3))⟩

/-- Claim C8, witness: "07:30 PM" parses into range (19:30). -/
theorem claim_C8_witness :
    0 ≤ (parseTime "07:30 PM").hour ∧ (parseTime "07:30 PM").hour ≤ 23 :=
  (claim_C8_amended "07:30 PM").2.2.2.2.1 (by decide) (by decide) (by decide)

end FacialAttendance
